import Mathlib

/-!
Shallow embedding of the `egui_memory_editor` crate (`src/lib.rs`): the
address-range registry, the layout arithmetic of `draw_editor_contents`, the
per-cell edit state machine of `draw_memory_values`, the arrow-key handler
`handle_keyboard_edit_input`, and the ASCII sidebar of `draw_ascii_sidebar`.
Machine integers (`usize`, `u8`) are modelled as `Nat`; a `usize` subtraction
that would underflow (a Rust panic in debug builds) is modelled as `none`.
-/

/-- Rust `type Address = usize`. -/
abbrev Address := Nat

/-- A half-open Rust `Range<Address>` (`start..end`); `stop` stands for the
Rust field `end`, which is a reserved word. -/
structure MemRange where
  start : Address
  stop : Address
  deriving Repr, DecidableEq

/-- Rust `Range::contains`: `start <= a && a < end`. -/
def MemRange.contains (r : MemRange) (a : Address) : Bool :=
  decide (r.start ≤ a) && decide (a < r.stop)

/-- Rust `Range::len` for `usize` ranges (`end - start`, saturating at 0 in
`Nat` exactly as an empty Rust range reports length 0). -/
def MemRange.len (r : MemRange) : Nat :=
  r.stop - r.start

/-- `draw_editor_contents`, line 162:
`let max_lines = (address_space.len() + column_count - 1) / column_count;`. -/
def max_lines (address_space : MemRange) (column_count : Nat) : Nat :=
  (address_space.len + column_count - 1) / column_count

/-- `draw_editor_contents`, line 193:
`let start_address = address_space.start + (start_row * column_count);`. -/
def row_start_address (address_space : MemRange) (start_row : Nat) (column_count : Nat) : Address :=
  address_space.start + start_row * column_count

/-- Ceiling division as the spec words it (`ceil(len / column_count)`),
written independently of the code's `(len + cc - 1) / cc` formula. -/
def spec_ceil_div (a b : Nat) : Nat :=
  a / b + (if a % b = 0 then 0 else 1)

/-- Rust `char::is_ascii_hexdigit`: `'0'..='9' | 'A'..='F' | 'a'..='f'`,
stated on the character's scalar value (48-57, 65-70, 97-102). -/
def is_ascii_hexdigit (c : Char) : Bool :=
  (decide (48 ≤ c.toNat) && decide (c.toNat ≤ 57))
    || (decide (65 ≤ c.toNat) && decide (c.toNat ≤ 70))
    || (decide (97 ≤ c.toNat) && decide (c.toNat ≤ 102))

/-- The value of one ASCII hex digit, as `u8::from_str_radix` interprets it
(`'0'..='9'` map to 0-9, `'A'..='F'` and `'a'..='f'` to 10-15). -/
def hexDigitValue (c : Char) : Option Nat :=
  if 48 ≤ c.toNat ∧ c.toNat ≤ 57 then some (c.toNat - 48)
  else if 65 ≤ c.toNat ∧ c.toNat ≤ 70 then some (c.toNat - 65 + 10)
  else if 97 ≤ c.toNat ∧ c.toNat ≤ 102 then some (c.toNat - 97 + 10)
  else none

/-- `u8::from_str_radix(s, 16)` applied to the two-byte slice `&s[0..2]` taken
in `draw_memory_values` (line 275); the argument is always exactly two
characters there, and two hex digits never overflow a `u8`. -/
def from_str_radix_u8 : List Char → Option Nat
  | [c1, c2] =>
    match hexDigitValue c1, hexDigitValue c2 with
    | some h, some l => some (16 * h + l)
    | _, _ => none
  | _ => none

/-- The fields of `BetweenFrameData` (module `option_data`) that the edit and
selection state machine touches; the edit buffer
`selected_edit_address_string` is a list of characters. -/
structure BetweenFrameData where
  selected_edit_address : Option Address
  selected_edit_address_string : List Char
  selected_edit_address_request_focus : Bool
  selected_highlight_address : Option Address
  deriving Repr, DecidableEq

/-- Modelled from the spec: `BetweenFrameData::set_selected_edit_address` lives
in the `option_data` module, which is not among the sources. Per the spec's
state machine, a transition targets `Editing(target, "")` — the buffer is
cleared and focus is requested for the new edit widget — and the editor falls
back to `Idle` when the target address is not inside the address space
("the armed address has been removed from the address space"). -/
def BetweenFrameData.set_selected_edit_address (fd : BetweenFrameData)
    (new_address : Option Address) (address_range : MemRange) : BetweenFrameData :=
  match new_address with
  | some addr =>
    if address_range.contains addr then
      { fd with
        selected_edit_address := some addr
        selected_edit_address_string := []
        selected_edit_address_request_focus := true }
    else
      { fd with selected_edit_address := none, selected_edit_address_string := [] }
  | none => { fd with selected_edit_address := none, selected_edit_address_string := [] }

/-- Modelled from the spec: `BetweenFrameData::set_highlight_address` lives in
the `option_data` module, which is not among the sources. Per the spec it sets
`highlighted_address = addr` and does not change the edit state. -/
def BetweenFrameData.set_highlight_address (fd : BetweenFrameData) (new_address : Address) :
    BetweenFrameData :=
  { fd with selected_highlight_address := some new_address }

/-- Outcome of processing the armed cell during one frame: the updated
between-frame state together with the list of `(address, value)` calls made to
the write capability, in order. -/
structure EditOutcome where
  frame : BetweenFrameData
  writes : List (Address × Nat)
  deriving Repr, DecidableEq

/-- The armed-cell branch of `draw_memory_values` (lines 253-289): the buffer
is first filtered to ASCII hex digits (line 268-270, `retain`); if it then
holds at least two characters, the first two are parsed as a `u8` in base 16,
a successful parse invokes the write capability when one is present, and the
selection moves to `memory_address + 1` (lines 273-283); otherwise, if the
edit widget lost focus, the selection is cleared (lines 284-289).
`write_present` is `write_fn.is_some()` and `has_focus` is
`ctx.memory().has_focus(id)` for the edit widget. -/
def editArmedCellStep (fd : BetweenFrameData) (memory_address : Address)
    (address_space : MemRange) (write_present : Bool) (has_focus : Bool) : EditOutcome :=
  let fd := { fd with
    selected_edit_address_string := fd.selected_edit_address_string.filter is_ascii_hexdigit }
  if 2 ≤ fd.selected_edit_address_string.length then
    let next_address := memory_address + 1
    let new_value := from_str_radix_u8 (fd.selected_edit_address_string.take 2)
    let writes : List (Address × Nat) :=
      match new_value with
      | some value => if write_present then [(memory_address, value)] else []
      | none => []
    ⟨fd.set_selected_edit_address (some next_address) address_space, writes⟩
  else if !has_focus then
    ⟨fd.set_selected_edit_address none address_space, []⟩
  else
    ⟨fd, []⟩

/-- The read-only-cell click handling of `draw_memory_values` (lines 314-325):
a secondary click always highlights; a primary click enters editing only when
a write capability is present, and otherwise highlights. -/
def cell_click_step (fd : BetweenFrameData) (memory_address : Address)
    (address_space : MemRange) (write_present : Bool)
    (secondary_clicked clicked : Bool) : BetweenFrameData :=
  let fd := if secondary_clicked then fd.set_highlight_address memory_address else fd
  if clicked then
    if write_present then fd.set_selected_edit_address (some memory_address) address_space
    else fd.set_highlight_address memory_address
  else fd

/-- The four arrow keys inspected by `handle_keyboard_edit_input`. -/
inductive ArrowKey where
  | left
  | right
  | up
  | down
  deriving Repr, DecidableEq

/-- The `match key` of `handle_keyboard_edit_input` (lines 400-412), computing
the target address. `current_address - 1` is a `usize` subtraction with no
guard: when `current_address = 0` it underflows, which panics in a debug build
(modelled as `none`); the up arrow carries an explicit clamp against
underflow. -/
def nextArrowAddress (key : ArrowKey) (current_address : Address) (column_count : Nat) :
    Option Address :=
  match key with
  | .down => some (current_address + column_count)
  | .left => if current_address = 0 then none else some (current_address - 1)
  | .right => some (current_address + 1)
  | .up =>
    if current_address < column_count then some 0
    else some (current_address - column_count)

/-- `handle_keyboard_edit_input` (lines 390-419): a no-op unless a cell is
armed and an arrow key was pressed; otherwise the target address is computed
and handed to `set_selected_edit_address`. The result is `none` exactly when
the address computation panics. -/
def handle_keyboard_edit_input (fd : BetweenFrameData) (address_range : MemRange)
    (column_count : Nat) (key_pressed : Option ArrowKey) : Option BetweenFrameData :=
  match fd.selected_edit_address with
  | none => some fd
  | some current_address =>
    match key_pressed with
    | none => some fd
    | some key =>
      (nextArrowAddress key current_address column_count).map
        (fun next_address => fd.set_selected_edit_address (some next_address) address_range)

/-- The addresses `draw_memory_values` reads for one row (lines 231-245): the
row is split into clusters of at most 8 columns (`grid_column` ranges over
`0..(column_count + 7) / 8`, the cluster holds
`min (column_count - 8 * grid_column) 8` columns); within a cluster the loop
computes `memory_address = start_address + 8 * grid_column + i` and `break`s
out of the cluster at the first address outside `address_space` (modelled with
`takeWhile`); addresses surviving the check are passed to `read_fn`. -/
def draw_memory_values_reads (start_address : Address) (address_space : MemRange)
    (column_count : Nat) : List Address :=
  (List.range ((column_count + 7) / 8)).flatMap (fun grid_column =>
    ((List.range (min (column_count - 8 * grid_column) 8)).map
        (fun i => start_address + 8 * grid_column + i)).takeWhile
      (fun memory_address => address_space.contains memory_address))

/-- The addresses `draw_ascii_sidebar` reads for one row (lines 345-353): one
run of `column_count` columns, `memory_address = start_address + i`, with the
same `break` at the first address outside `address_space`. -/
def draw_ascii_sidebar_reads (start_address : Address) (address_space : MemRange)
    (column_count : Nat) : List Address :=
  ((List.range column_count).map (fun i => start_address + i)).takeWhile
    (fun memory_address => address_space.contains memory_address)

/-- `draw_ascii_sidebar`, lines 354-358: a byte in `32..128` is shown as the
character with that code (`mem_val as char`), anything else as `'.'`. -/
def ascii_character (mem_val : Nat) : Char :=
  if ¬(32 ≤ mem_val ∧ mem_val < 128) then '.' else Char.ofNat mem_val

/-- `draw_ascii_sidebar` as a whole, for one row: it renders one character per
in-range column from the byte `read_fn` returns, and — taking `&mut self` but
never assigning to any state — leaves the between-frame state exactly as it
found it, which the explicit state passing records by returning `fd`
untouched. -/
def draw_ascii_sidebar (fd : BetweenFrameData) (start_address : Address)
    (address_space : MemRange) (column_count : Nat) (mem : Address → Nat) :
    List Char × BetweenFrameData :=
  ((draw_ascii_sidebar_reads start_address address_space column_count).map
    (fun memory_address => ascii_character (mem memory_address % 256)), fd)

/-- What one `show_rows` callback run records and reads
(`draw_editor_contents`, lines 181-215): `line_range` is the range of visible
row indices supplied by the scroll area; line 183 stores it into the
`visible_range` field unchanged, and every visible row triggers
`draw_memory_values` and (with `show_ascii`) `draw_ascii_sidebar` at
`start_address = address_space.start + start_row * column_count`. -/
structure RenderResult where
  visible_range : MemRange
  reads : List Address
  deriving Repr, DecidableEq

/-- The body of the `show_rows` closure in `draw_editor_contents`: persists
`line_range` as `visible_range` (line 183) and collects, in order, every
address handed to `read_fn` while drawing the visible rows. -/
def show_rows_step (address_space : MemRange) (column_count : Nat) (show_ascii : Bool)
    (line_range : MemRange) : RenderResult :=
  { visible_range := line_range
    reads :=
      (List.range' line_range.start line_range.len).flatMap (fun start_row =>
        let start_address := row_start_address address_space start_row column_count
        draw_memory_values_reads start_address address_space column_count
          ++ (if show_ascii then
                draw_ascii_sidebar_reads start_address address_space column_count
              else [])) }

/-- Rust's `Ord` for `String` (lexicographic over the bytes, which over the
characters' scalar values agrees on the ASCII names used here), as a
computable comparison on the character lists. -/
def charListLtb : List Char → List Char → Bool
  | [], [] => false
  | [], _ :: _ => true
  | _ :: _, [] => false
  | a :: as, b :: bs =>
    if a.toNat < b.toNat then true
    else if b.toNat < a.toNat then false
    else charListLtb as bs

/-- The key order of `BTreeMap<String, _>`. -/
def string_key_ltb (a b : String) : Bool :=
  charListLtb a.data b.data

/-- `BTreeMap<String, Range<Address>>` as an association list kept sorted by
key in ascending order, the order `BTreeMap::iter` yields. `insert` replaces
the value of an existing key. -/
def btreeInsert (k : String) (v : MemRange) :
    List (String × MemRange) → List (String × MemRange)
  | [] => [(k, v)]
  | (k0, v0) :: rest =>
    if string_key_ltb k k0 then (k, v) :: (k0, v0) :: rest
    else if k = k0 then (k, v) :: rest
    else (k0, v0) :: btreeInsert k v rest

/-- The fields of `MemoryEditor` that `with_address_range` touches:
`address_ranges` (the sorted map), `options.selected_address_range`, and
`frame_data.memory_range_combo_box_enabled`. -/
structure MemoryEditorRanges where
  address_ranges : List (String × MemRange)
  selected_address_range : String
  memory_range_combo_box_enabled : Bool
  deriving Repr, DecidableEq

/-- The range-related state of `MemoryEditor::new()`: no ranges, default
options (empty selected range name), default frame data. -/
def MemoryEditor.new : MemoryEditorRanges :=
  { address_ranges := []
    selected_address_range := ""
    memory_range_combo_box_enabled := false }

/-- `MemoryEditor::with_address_range` (lines 437-444): inserts the named
range, enables the combo box when more than one range exists, and sets
`options.selected_address_range` to the name yielded by
`address_ranges.iter().next()` — the first entry of the sorted map. -/
def with_address_range (ed : MemoryEditorRanges) (range_name : String)
    (address_range : MemRange) : MemoryEditorRanges :=
  let ranges := btreeInsert range_name address_range ed.address_ranges
  { address_ranges := ranges
    memory_range_combo_box_enabled := decide (1 < ranges.length)
    selected_address_range :=
      match ranges.head? with
      | some nv => nv.1
      | none => ed.selected_address_range }

/-! ## Helper lemmas -/

theorem pred_add_div_eq_spec_ceil_div (b : Nat) (hb : 0 < b) (a : Nat) :
    (a + b - 1) / b = spec_ceil_div a b := by
  unfold spec_ceil_div
  cases a with
  | zero =>
    have h1 : b - 1 < b := by omega
    simp [Nat.div_eq_of_lt h1]
  | succ n =>
    have h1 : n + 1 + b - 1 = n + b := by omega
    rw [h1, Nat.add_div_right _ hb, Nat.succ_div]
    by_cases hd : b ∣ n + 1
    · rw [if_pos hd, if_pos (Nat.dvd_iff_mod_eq_zero.mp hd)]
    · rw [if_neg hd, if_neg (fun hmod => hd (Nat.dvd_iff_mod_eq_zero.mpr hmod))]

theorem hexDigitValue_of_hexdigit {c : Char} (h : is_ascii_hexdigit c = true) :
    ∃ n, hexDigitValue c = some n ∧ n < 16 := by
  unfold is_ascii_hexdigit at h
  unfold hexDigitValue
  simp only [Bool.or_eq_true, Bool.and_eq_true, decide_eq_true_eq] at h
  generalize c.toNat = m at h ⊢
  rcases h with (⟨ha, hb⟩ | ⟨ha, hb⟩) | ⟨ha, hb⟩
  · rw [if_pos ⟨ha, hb⟩]
    exact ⟨m - 48, rfl, by omega⟩
  · rw [if_neg (by omega), if_pos ⟨ha, hb⟩]
    exact ⟨m - 65 + 10, rfl, by omega⟩
  · rw [if_neg (by omega), if_neg (by omega), if_pos ⟨ha, hb⟩]
    exact ⟨m - 97 + 10, rfl, by omega⟩

theorem take_two_of_filter_parses (l : List Char)
    (h2 : 2 ≤ (l.filter is_ascii_hexdigit).length) :
    ∃ v, from_str_radix_u8 ((l.filter is_ascii_hexdigit).take 2) = some v ∧ v < 256 := by
  rcases hf : l.filter is_ascii_hexdigit with _ | ⟨c1, _ | ⟨c2, rest⟩⟩
  · rw [hf] at h2; simp at h2
  · rw [hf] at h2; simp at h2
  · have hc1 : is_ascii_hexdigit c1 = true :=
      List.of_mem_filter (p := is_ascii_hexdigit) (hf ▸ List.mem_cons_self c1 _)
    have hc2 : is_ascii_hexdigit c2 = true :=
      List.of_mem_filter (p := is_ascii_hexdigit)
        (hf ▸ List.mem_cons_of_mem c1 (List.mem_cons_self c2 rest))
    obtain ⟨a, ha, hal⟩ := hexDigitValue_of_hexdigit hc1
    obtain ⟨b, hb, hbl⟩ := hexDigitValue_of_hexdigit hc2
    refine ⟨16 * a + b, ?_, by omega⟩
    simp [from_str_radix_u8, ha, hb]

/-! ## Claim theorems -/

/-- C2: for every address space and every positive column count, the number of
rows `draw_editor_contents` computes (`max_lines`, line 162) equals the
ceiling of `len / column_count`, and the start address of row `r` (line 193)
equals `address_space.start + r * column_count`; in particular the address
space `0..256` with 16 columns yields 16 rows, and row 5 starts at
address 80. -/
theorem layout_rows_spec (address_space : MemRange) (column_count start_row : Nat)
    (h : 0 < column_count) :
    max_lines address_space column_count = spec_ceil_div address_space.len column_count
    ∧ row_start_address address_space start_row column_count
        = address_space.start + start_row * column_count
    ∧ max_lines ⟨0, 256⟩ 16 = 16
    ∧ row_start_address ⟨0, 256⟩ 5 16 = 80 :=
  ⟨pred_add_div_eq_spec_ceil_div column_count h address_space.len, rfl, by decide, by decide⟩

/-- Witness for C2 at the spec's own scenario: address space `0..256`,
16 columns, row 5. -/
theorem layout_rows_spec_witness :
    max_lines ⟨0, 256⟩ 16 = spec_ceil_div (MemRange.len ⟨0, 256⟩) 16
    ∧ row_start_address ⟨0, 256⟩ 5 16 = MemRange.start ⟨0, 256⟩ + 5 * 16
    ∧ max_lines ⟨0, 256⟩ 16 = 16
    ∧ row_start_address ⟨0, 256⟩ 5 16 = 80 :=
  layout_rows_spec ⟨0, 256⟩ 16 5 (by decide)

/-- C8: every address handed to the read capability while drawing one row of
the memory grid (`draw_memory_values`, lines 241-245) or of the ASCII sidebar
(`draw_ascii_sidebar`, lines 349-353) lies inside the selected address space:
a computed address outside it is skipped by the `break`, never read. -/
theorem reads_within_address_space (start_address : Address) (address_space : MemRange)
    (column_count : Nat) (a : Address)
    (h : a ∈ draw_memory_values_reads start_address address_space column_count
           ++ draw_ascii_sidebar_reads start_address address_space column_count) :
    address_space.contains a = true := by
  rcases List.mem_append.mp h with h | h
  · obtain ⟨gc, _, hmem⟩ := List.mem_flatMap.mp h
    exact List.mem_takeWhile_imp hmem
  · exact List.mem_takeWhile_imp h

/-- Witness for C8: address 85 is among the reads of the row starting at 80 in
`0..256` with 16 columns, and it is inside the address space. -/
theorem reads_within_address_space_witness :
    MemRange.contains ⟨0, 256⟩ 85 = true :=
  reads_within_address_space 80 ⟨0, 256⟩ 16 85 (by decide)

/-- C1 counterexample: at the last cell of the address space `0..1`, entering
the two hex digits `FF` invokes the write exactly once, but the armed address
becomes `none` (editing ends) instead of the claimed `addr + 1 = 1`, because
`1` lies outside the address space. -/
theorem edit_commit_no_advance_at_range_end :
    (editArmedCellStep ⟨some 0, ['F', 'F'], false, none⟩ 0 ⟨0, 1⟩ true true).writes = [(0, 255)]
    ∧ (editArmedCellStep ⟨some 0, ['F', 'F'], false, none⟩ 0 ⟨0, 1⟩ true true).frame.selected_edit_address
        ≠ some 1 := by decide

/-- C1 (amended): for an armed cell at `memory_address` whose buffer holds
exactly two ASCII hex digits, the frame step of `draw_memory_values`
(lines 273-283) invokes the write capability exactly once, with
`memory_address` and the 8-bit value the two digits denote in base 16; the
armed address then becomes `memory_address + 1` with an empty buffer whenever
`memory_address + 1` still lies in the address space, and otherwise editing
ends (armed address `none`, buffer empty). -/
theorem edit_commit_round_trip (fd : BetweenFrameData) (memory_address : Address)
    (address_space : MemRange) (has_focus : Bool) (c1 c2 : Char)
    (_harm : fd.selected_edit_address = some memory_address)
    (hbuf : fd.selected_edit_address_string = [c1, c2])
    (h1 : is_ascii_hexdigit c1 = true) (h2 : is_ascii_hexdigit c2 = true) :
    ∃ v, from_str_radix_u8 [c1, c2] = some v ∧ v < 256
      ∧ (editArmedCellStep fd memory_address address_space true has_focus).writes
          = [(memory_address, v)]
      ∧ (editArmedCellStep fd memory_address address_space true has_focus).frame.selected_edit_address
          = (if address_space.contains (memory_address + 1) then some (memory_address + 1)
             else none)
      ∧ (editArmedCellStep fd memory_address address_space true
            has_focus).frame.selected_edit_address_string = [] := by
  obtain ⟨a, ha, hal⟩ := hexDigitValue_of_hexdigit h1
  obtain ⟨b, hb, hbl⟩ := hexDigitValue_of_hexdigit h2
  refine ⟨16 * a + b, by simp [from_str_radix_u8, ha, hb], by omega, ?_, ?_, ?_⟩ <;>
    simp only [editArmedCellStep, hbuf, List.filter, h1, h2] <;>
    simp [from_str_radix_u8, ha, hb, BetweenFrameData.set_selected_edit_address] <;>
    split <;> simp

/-- Witness for C1 (amended) at the spec's own scenario: armed address 10 in
`0..256`, digits `9F`. -/
theorem edit_commit_round_trip_witness :
    ∃ v, from_str_radix_u8 ['9', 'F'] = some v ∧ v < 256
      ∧ (editArmedCellStep ⟨some 10, ['9', 'F'], false, none⟩ 10 ⟨0, 256⟩ true true).writes
          = [(10, v)]
      ∧ (editArmedCellStep ⟨some 10, ['9', 'F'], false, none⟩ 10 ⟨0, 256⟩ true
            true).frame.selected_edit_address
          = (if MemRange.contains ⟨0, 256⟩ (10 + 1) then some (10 + 1) else none)
      ∧ (editArmedCellStep ⟨some 10, ['9', 'F'], false, none⟩ 10 ⟨0, 256⟩ true
            true).frame.selected_edit_address_string = [] :=
  edit_commit_round_trip ⟨some 10, ['9', 'F'], false, none⟩ 10 ⟨0, 256⟩ true '9' 'F'
    rfl rfl (by decide) (by decide)

/-- C3: evaluation of `handle_keyboard_edit_input` at the failing input. With
a cell armed at address 0 (inside `0..256`, 16 columns), a left-arrow press
computes `current_address - 1 = 0 - 1` on `usize` (line 402), which
underflows: the handler aborts (panics in a debug build) instead of clamping
to the range start. The up arrow at the same position is clamped (line
404-410), showing the guard the left arrow lacks. -/
theorem arrow_left_underflows_at_zero :
    handle_keyboard_edit_input ⟨some 0, [], false, none⟩ ⟨0, 256⟩ 16 (some .left) = none
    ∧ nextArrowAddress .left 0 16 = none
    ∧ handle_keyboard_edit_input ⟨some 0, [], false, none⟩ ⟨0, 256⟩ 16 (some .up)
        = some ⟨some 0, [], true, none⟩ := by decide

/-- C4: evaluation of the `show_rows` step at a concrete frame. With address
space `0..256`, 16 columns and visible rows `4..6`, line 183 stores the raw
row-index range `4..6` into `visible_range`, while the addresses actually
rendered that frame are `64..96`: address 64 is read but is not contained in
the stored range, and address 4 is inside the stored range but never
rendered. `visible_range()` therefore does not return the rendered subset of
the address range its own documentation (lines 36-37, 65-67) promises. -/
theorem visible_range_is_row_indices :
    (show_rows_step ⟨0, 256⟩ 16 true ⟨4, 6⟩).visible_range = ⟨4, 6⟩
    ∧ 64 ∈ (show_rows_step ⟨0, 256⟩ 16 true ⟨4, 6⟩).reads
    ∧ MemRange.contains (show_rows_step ⟨0, 256⟩ 16 true ⟨4, 6⟩).visible_range 64 = false
    ∧ 4 ∉ (show_rows_step ⟨0, 256⟩ 16 true ⟨4, 6⟩).reads := by decide

/-- C5: evaluation of `with_address_range` at the failing input. Adding range
"B" first and range "A" second leaves `selected_address_range = "A"`: line
440-442 re-reads the first entry of the `BTreeMap` — the lexicographically
smallest name — on every call, so the default selection is not the
first-added range the method's own documentation (line 433) promises. -/
theorem default_selection_is_smallest_name :
    (with_address_range (with_address_range MemoryEditor.new "B" ⟨0, 16⟩) "A"
        ⟨0, 32⟩).selected_address_range = "A"
    ∧ (with_address_range (with_address_range MemoryEditor.new "B" ⟨0, 16⟩) "A"
        ⟨0, 32⟩).selected_address_range ≠ "B"
    ∧ (with_address_range MemoryEditor.new "B" ⟨0, 16⟩).selected_address_range = "B" := by
  decide

theorem toNat_ofNat_of_lt {n : Nat} (h : n < 128) : (Char.ofNat n).toNat = n := by
  have hv : n.isValidChar := Or.inl (by omega)
  rw [Char.ofNat, dif_pos hv]
  rfl

theorem editArmedCellStep_string_congr (fd : BetweenFrameData) (s1 s2 : List Char)
    (h : s1.filter is_ascii_hexdigit = s2.filter is_ascii_hexdigit)
    (memory_address : Address) (address_space : MemRange) (write_present has_focus : Bool) :
    editArmedCellStep { fd with selected_edit_address_string := s1 } memory_address
        address_space write_present has_focus
      = editArmedCellStep { fd with selected_edit_address_string := s2 } memory_address
          address_space write_present has_focus := by
  simp only [editArmedCellStep]
  rw [h]

/-- C6: with no write capability supplied, a click on a cell never arms it:
the primary-click branch of `draw_memory_values` (lines 319-325) calls
`set_highlight_address` instead of `set_selected_edit_address` when
`write_fn.is_none()`, so `selected_edit_address` stays `None` and only the
highlighted address is set to the clicked cell. -/
theorem read_only_click_never_edits (fd : BetweenFrameData) (memory_address : Address)
    (address_space : MemRange) (secondary_clicked clicked : Bool)
    (hidle : fd.selected_edit_address = none) (hclick : clicked = true) :
    (cell_click_step fd memory_address address_space false secondary_clicked
        clicked).selected_edit_address = none
    ∧ (cell_click_step fd memory_address address_space false secondary_clicked
        clicked).selected_highlight_address = some memory_address := by
  subst hclick
  unfold cell_click_step BetweenFrameData.set_highlight_address
  cases secondary_clicked <;> simp [hidle]

/-- Witness for C6: an idle editor in `0..16`, primary click on cell 3. -/
theorem read_only_click_never_edits_witness :
    (cell_click_step ⟨none, [], false, none⟩ 3 ⟨0, 16⟩ false false
        true).selected_edit_address = none
    ∧ (cell_click_step ⟨none, [], false, none⟩ 3 ⟨0, 16⟩ false false
        true).selected_highlight_address = some 3 :=
  read_only_click_never_edits ⟨none, [], false, none⟩ 3 ⟨0, 16⟩ false true rfl rfl

/-- C7: the `retain` of line 268-270 runs before any commit logic: appending a
non-hex character to an already-filtered buffer leaves the filtered buffer
unchanged, the filtered buffer consists solely of ASCII hex digits, and the
whole armed-cell step behaves identically with and without the non-hex
character. -/
theorem hex_filter_rejects_non_hex (fd : BetweenFrameData) (buf : List Char) (c : Char)
    (memory_address : Address) (address_space : MemRange) (write_present has_focus : Bool)
    (hinv : buf.filter is_ascii_hexdigit = buf) (hc : is_ascii_hexdigit c = false) :
    (buf ++ [c]).filter is_ascii_hexdigit = buf
    ∧ ((buf ++ [c]).filter is_ascii_hexdigit).all is_ascii_hexdigit = true
    ∧ editArmedCellStep { fd with selected_edit_address_string := buf ++ [c] }
          memory_address address_space write_present has_focus
        = editArmedCellStep { fd with selected_edit_address_string := buf }
            memory_address address_space write_present has_focus := by
  have key : (buf ++ [c]).filter is_ascii_hexdigit = buf := by
    rw [List.filter_append]
    simp [List.filter, hc, hinv]
  refine ⟨key, ?_, ?_⟩
  · exact List.all_eq_true.mpr fun d hd => List.of_mem_filter hd
  · exact editArmedCellStep_string_congr fd (buf ++ [c]) buf (key.trans hinv.symm)
      memory_address address_space write_present has_focus

/-- Witness for C7: buffer `"9"`, typed character `'z'`. -/
theorem hex_filter_rejects_non_hex_witness :
    (['9'] ++ ['z']).filter is_ascii_hexdigit = ['9']
    ∧ ((['9'] ++ ['z']).filter is_ascii_hexdigit).all is_ascii_hexdigit = true
    ∧ editArmedCellStep { (⟨some 5, [], false, none⟩ : BetweenFrameData) with
          selected_edit_address_string := ['9'] ++ ['z'] } 5 ⟨0, 256⟩ true true
        = editArmedCellStep { (⟨some 5, [], false, none⟩ : BetweenFrameData) with
            selected_edit_address_string := ['9'] } 5 ⟨0, 256⟩ true true :=
  hex_filter_rejects_non_hex ⟨some 5, [], false, none⟩ ['9'] 'z' 5 ⟨0, 256⟩ true true
    (by decide) (by decide)

/-- C9: defensive handling of the `u8::from_str_radix` result (lines 275-281).
If the parse of the first two filtered characters fails, no write is invoked;
moreover such a failure is unreachable once the hex filter has run: a parse
failure forces the filtered buffer below two characters — two ASCII hex
digits always parse — and in that case (while the widget keeps focus) the
armed address is kept and the buffer is only hex-filtered, never committed. -/
theorem parse_failure_never_writes (fd : BetweenFrameData) (memory_address : Address)
    (address_space : MemRange) (write_present has_focus : Bool)
    (hfail : from_str_radix_u8
        ((fd.selected_edit_address_string.filter is_ascii_hexdigit).take 2) = none) :
    (editArmedCellStep fd memory_address address_space write_present has_focus).writes = []
    ∧ (fd.selected_edit_address_string.filter is_ascii_hexdigit).length < 2
    ∧ (has_focus = true →
        (editArmedCellStep fd memory_address address_space write_present
            has_focus).frame.selected_edit_address = fd.selected_edit_address
        ∧ (editArmedCellStep fd memory_address address_space write_present
            has_focus).frame.selected_edit_address_string
            = fd.selected_edit_address_string.filter is_ascii_hexdigit) := by
  have hlen : (fd.selected_edit_address_string.filter is_ascii_hexdigit).length < 2 := by
    by_contra hge
    push_neg at hge
    obtain ⟨v, hv, _⟩ := take_two_of_filter_parses _ hge
    rw [hv] at hfail
    cases hfail
  refine ⟨?_, hlen, ?_⟩
  · simp only [editArmedCellStep]
    rw [if_neg (by omega)]
    cases has_focus <;> simp [BetweenFrameData.set_selected_edit_address]
  · intro hf
    subst hf
    simp only [editArmedCellStep]
    rw [if_neg (by omega)]
    simp

/-- Witness for C9: armed cell 3 in `0..16`, buffer `"z"` — the filter leaves
it empty, so the two-character parse yields `none`. -/
theorem parse_failure_never_writes_witness :
    (editArmedCellStep ⟨some 3, ['z'], false, none⟩ 3 ⟨0, 16⟩ true true).writes = []
    ∧ (List.filter is_ascii_hexdigit ['z']).length < 2
    ∧ (true = true →
        (editArmedCellStep ⟨some 3, ['z'], false, none⟩ 3 ⟨0, 16⟩ true
            true).frame.selected_edit_address = some 3
        ∧ (editArmedCellStep ⟨some 3, ['z'], false, none⟩ 3 ⟨0, 16⟩ true
            true).frame.selected_edit_address_string
            = List.filter is_ascii_hexdigit ['z']) :=
  parse_failure_never_writes ⟨some 3, ['z'], false, none⟩ 3 ⟨0, 16⟩ true true (by decide)

/-- C10: the ASCII sidebar renders the byte `b` as the character with code `b`
when `32 <= b < 128` and as `'.'` otherwise (lines 354-358), and drawing the
sidebar changes no editor state. -/
theorem ascii_sidebar_char_and_state (fd : BetweenFrameData) (start_address : Address)
    (address_space : MemRange) (column_count : Nat) (mem : Address → Nat) (b : Nat)
    (hb : b < 256) :
    (32 ≤ b ∧ b < 128 →
      ascii_character b = Char.ofNat b ∧ (ascii_character b).toNat = b)
    ∧ (¬(32 ≤ b ∧ b < 128) → ascii_character b = '.')
    ∧ (draw_ascii_sidebar fd start_address address_space column_count mem).2 = fd := by
  refine ⟨?_, ?_, rfl⟩
  · rintro ⟨h1, h2⟩
    have he : ascii_character b = Char.ofNat b := by
      unfold ascii_character
      rw [if_neg (by omega)]
    exact ⟨he, by rw [he, toNat_ofNat_of_lt h2]⟩
  · intro hn
    unfold ascii_character
    rw [if_pos hn]

/-- Witness for C10: byte 65 renders as `'A'`, byte bounds discharged at 65. -/
theorem ascii_sidebar_char_and_state_witness :
    (32 ≤ 65 ∧ 65 < 128 →
      ascii_character 65 = Char.ofNat 65 ∧ (ascii_character 65).toNat = 65)
    ∧ (¬(32 ≤ 65 ∧ 65 < 128) → ascii_character 65 = '.')
    ∧ (draw_ascii_sidebar ⟨none, [], false, none⟩ 0 ⟨0, 16⟩ 16 (fun _ => 65)).2
        = ⟨none, [], false, none⟩ :=
  ascii_sidebar_char_and_state ⟨none, [], false, none⟩ 0 ⟨0, 16⟩ 16 (fun _ => 65) 65
    (by decide)
